import Mathlib

/-!
Verification development for the `shh` SSH-host helper.

The Go sources are shallowly embedded here.  Strings are modelled as
`List Char` (Go compares strings byte-wise over UTF-8, which agrees with
code-point lexicographic order on `List Char`).  Character classification
(`unicode.IsSpace`, ASCII letter/digit tests used by the regular
expressions) is modelled on the code-point value; Unicode simple case
folding beyond ASCII is not modelled (the `ssh` token search and the host
allow-list are ASCII-only).  `sql.NullTime` is modelled as `Option Int`
with `time.After` as `>` on the embedded clock value.  The SQLite store is
modelled as the set of catalogued host strings, with the `UNIQUE`
constraint on `host` raising the unique-constraint error that
`isUniqueConstraintError` recognises.
-/

/-- Strings from the Go source, modelled as lists of characters. -/
abbrev Str := List Char

/-- Conversion helper from Lean string literals to the `Str` model. -/
def str (s : String) : Str := s.data

/-- Model of `unicode.IsSpace` (the set used by `strings.TrimSpace` and
`strings.Fields`). -/
def goIsSpace (c : Char) : Bool :=
  decide (c.toNat = 32) || decide (c.toNat = 9) || decide (c.toNat = 10) ||
  decide (c.toNat = 11) || decide (c.toNat = 12) || decide (c.toNat = 13) ||
  decide (c.toNat = 0x85) || decide (c.toNat = 0xA0) || decide (c.toNat = 0x1680) ||
  decide (0x2000 ≤ c.toNat ∧ c.toNat ≤ 0x200A) || decide (c.toNat = 0x2028) ||
  decide (c.toNat = 0x2029) || decide (c.toNat = 0x202F) || decide (c.toNat = 0x205F) ||
  decide (c.toNat = 0x3000)

/-- Model of `strings.TrimSpace`: drop Unicode whitespace from both ends. -/
def goTrimSpace (s : Str) : Str :=
  ((s.dropWhile goIsSpace).reverse.dropWhile goIsSpace).reverse

/-- Character class `[A-Za-z0-9._-]` of the `safeHost` regular expression. -/
def isAllowChar (c : Char) : Bool :=
  decide (65 ≤ c.toNat ∧ c.toNat ≤ 90) || decide (97 ≤ c.toNat ∧ c.toNat ≤ 122) ||
  decide (48 ≤ c.toNat ∧ c.toNat ≤ 57) || decide (c.toNat = 46) ||
  decide (c.toNat = 95) || decide (c.toNat = 45)

/-- Character class `[0-9A-Fa-f:]` of the `safeHost` regular expression. -/
def isHexColon (c : Char) : Bool :=
  decide (48 ≤ c.toNat ∧ c.toNat ≤ 57) || decide (65 ≤ c.toNat ∧ c.toNat ≤ 70) ||
  decide (97 ≤ c.toNat ∧ c.toNat ≤ 102) || decide (c.toNat = 58)

/-- Matcher for `[0-9A-Fa-f:]*\]` where the list must end in `]` and all
preceding characters are hex digits or colons. -/
def hexClose : Str → Bool
  | [] => false
  | [c] => decide (c = ']')
  | c :: d :: rest => isHexColon c && hexClose (d :: rest)

/-- Model of the anchored regular expression
`^(?:[A-Za-z0-9._-]+|\[[0-9A-Fa-f:]+\])$` (`safeHost` in the source). -/
def safeHost (t : Str) : Bool :=
  (decide (t ≠ []) && t.all isAllowChar) ||
  (match t with
   | '[' :: c :: rest => isHexColon c && hexClose (c :: rest)
   | _ => false)

/-- Error cases of `normalizeHost` (the spec's `InvalidHost` taxonomy). -/
inductive HostErr
  | empty
  | spaces
  | invalid
deriving DecidableEq, Repr

/-- Model of `normalizeHost`: trim, reject empty, reject an interior space,
then check the `safeHost` allow-list. -/
def normalizeHost (raw : Str) : Except HostErr Str :=
  let host := goTrimSpace raw
  if host = [] then .error .empty
  else if ' ' ∈ host then .error .spaces
  else if safeHost host then .ok host
  else .error .invalid

instance (α β : Type) [DecidableEq α] [DecidableEq β] : DecidableEq (Except α β) :=
  fun a b =>
    match a, b with
    | .ok x, .ok y =>
      if h : x = y then .isTrue (by rw [h]) else .isFalse (by simp [h])
    | .error x, .error y =>
      if h : x = y then .isTrue (by rw [h]) else .isFalse (by simp [h])
    | .ok _, .error _ => .isFalse (by simp)
    | .error _, .ok _ => .isFalse (by simp)

/-- ASCII letter test, the `[A-Za-z]` class of `ansiRegexp`. -/
def isAsciiAlpha (c : Char) : Bool :=
  decide (65 ≤ c.toNat ∧ c.toNat ≤ 90) || decide (97 ≤ c.toNat ∧ c.toNat ≤ 122)

/-- ASCII digit test, used in the `[0-9;]` run of `ansiRegexp`. -/
def isAsciiDigit (c : Char) : Bool :=
  decide (48 ≤ c.toNat ∧ c.toNat ≤ 57)

/-- Scanner for `ansiRegexp.ReplaceAllString(line, "")` with pattern
`\x1b\[[0-9;]*[A-Za-z]`.  The second argument holds, in reverse, the
characters of a potential match read so far (`ESC`, then `ESC [`, then
`ESC [` plus a run of digits and semicolons); since `[0-9;]` and `[A-Za-z]`
are disjoint, the leftmost match is exactly `ESC [`, a maximal run of
digits/semicolons, then one letter.  On a failed partial match the pending
characters are flushed unchanged; no match can start inside them because
only `ESC` can start a match. -/
def ansiGo : Str → Str → Str
  | [], pend => pend.reverse
  | c :: rest, pend =>
    match pend with
    | [] =>
      if c.toNat = 27 then ansiGo rest [c] else c :: ansiGo rest []
    | [e] =>
      if c = '[' then ansiGo rest ['[', e]
      else e :: (if c.toNat = 27 then ansiGo rest [c] else c :: ansiGo rest [])
    | _ :: _ :: _ =>
      if isAsciiDigit c || c = ';' then ansiGo rest (c :: pend)
      else if isAsciiAlpha c then ansiGo rest []
      else pend.reverse ++ (if c.toNat = 27 then ansiGo rest [c] else c :: ansiGo rest [])

/-- Model of `ansiRegexp.ReplaceAllString(line, "")`. -/
def stripAnsi (s : Str) : Str := ansiGo s []

/-- Accumulator-style splitter behind `goFields`. -/
def fieldsAux : Str → Str → List Str
  | [], acc => if acc = [] then [] else [acc.reverse]
  | c :: rest, acc =>
    if goIsSpace c then
      if acc = [] then fieldsAux rest [] else acc.reverse :: fieldsAux rest []
    else fieldsAux rest (c :: acc)

/-- Model of `strings.Fields`: split around runs of Unicode whitespace. -/
def goFields (s : Str) : List Str := fieldsAux s []

/-- Remainder of the list after the first `;`, if any; models
`strings.Index(line, ";")` followed by `line[idx+1:]`. -/
def dropThroughSemi : Str → Option Str
  | [] => none
  | c :: rest => if c = ';' then some rest else dropThroughSemi rest

/-- ASCII model of `strings.ToLower` on one character. -/
def lowerCh (c : Char) : Char :=
  if 65 ≤ c.toNat ∧ c.toNat ≤ 90 then Char.ofNat (c.toNat + 32) else c

/-- ASCII model of `strings.ToLower`. -/
def lowerStr (s : Str) : Str := s.map lowerCh

/-- Model of the ssh-binary test: `strings.EqualFold(field, "ssh")` or
`strings.HasSuffix(strings.ToLower(field), "/ssh")`. -/
def isSshToken (f : Str) : Bool :=
  lowerStr f = str "ssh" || (str "/ssh").isSuffixOf (lowerStr f)

/-- Fields strictly after the first field recognised as the ssh binary
(`sshIndex` search in `parseHistoryLine`); `none` when no field matches. -/
def fieldsAfterSsh : List Str → Option (List Str)
  | [] => none
  | f :: rest => if isSshToken f then some rest else fieldsAfterSsh rest

/-- The `sshOptionsWithArg` set: single-letter ssh flags that take a
separate value argument. -/
def sshOptionsWithArg (tok : Str) : Bool :=
  decide (tok ∈ [str "-b", str "-c", str "-D", str "-E", str "-F", str "-I",
                 str "-i", str "-J", str "-L", str "-l", str "-m", str "-o",
                 str "-p", str "-Q", str "-R", str "-S", str "-W", str "-w"])

/-- Suffix after the last `@` (`strings.LastIndex(host, "@")` then
`host[at+1:]`); the whole string when no `@` occurs. -/
def afterLastAt (s : Str) : Str :=
  (s.reverse.takeWhile (fun c => !decide (c = '@'))).reverse

/-- The cutset `[]` of `strings.Trim(host, "[]")`. -/
def isBracketCh (c : Char) : Bool := decide (c = '[') || decide (c = ']')

/-- Model of `strings.Trim(host, "[]")`: strip leading and trailing
bracket characters. -/
def goTrimBrackets (s : Str) : Str :=
  ((s.dropWhile isBracketCh).reverse.dropWhile isBracketCh).reverse

/-- Treatment of the first bare token in `parseHistoryLine`: strip a
`user@` prefix and surrounding brackets, reject an empty remainder, then
normalize; a normalization failure yields not-found. -/
def extractTarget (tok : Str) : Option Str :=
  let host := afterLastAt tok
  let host := goTrimBrackets host
  if host = [] then none
  else
    match normalizeHost host with
    | .ok n => some n
    | .error _ => none

/-- The field walk of `parseHistoryLine` after the ssh token.  The `Bool`
is the `expectValue` state: when set, the current field is consumed as the
preceding flag's value.  `--` is skipped; a token whose lower-cased form
starts with `-` is a flag (tokens containing `=` and combined short forms
longer than two characters consume no value; members of
`sshOptionsWithArg` set `expectValue`); the first bare token is the target
and scanning stops with `extractTarget`'s verdict. -/
def walkFields : Bool → List Str → Option Str
  | _, [] => none
  | true, _ :: rest => walkFields false rest
  | false, tok :: rest =>
    if tok = str "--" then walkFields false rest
    else if (lowerStr tok).head? = some '-' then
      (if '=' ∈ tok then walkFields false rest
       else if 2 < tok.length then walkFields false rest
       else if sshOptionsWithArg tok then walkFields true rest
       else walkFields false rest)
    else extractTarget tok

/-- Classification of the line remainder after ANSI stripping, trimming and
zsh-prefix removal: split into fields, find the ssh token, walk the
remaining fields. -/
def classifyRest (l2 : Str) : Option Str :=
  let fs := goFields l2
  if fs = [] then none
  else
    match fieldsAfterSsh fs with
    | none => none
    | some rest => walkFields false rest

/-- Model of `parseHistoryLine`: strip ANSI escapes, trim, drop a zsh
extended-history prefix (a line starting `": "` loses everything through
its first `;`), then classify the remaining fields. -/
def parseHistoryLine (line : Str) : Option Str :=
  let l1 := goTrimSpace (stripAnsi line)
  if l1 = [] then none
  else
    let l2 := if (str ": ").isPrefixOf l1 then
                match dropThroughSemi l1 with
                | some r => r
                | none => l1
              else l1
    classifyRest l2

example : parseHistoryLine (str "ssh example.com") = some (str "example.com") := by decide
example : parseHistoryLine (str "ssh -p 2222 user@example.com") = some (str "example.com") := by
  decide
example : parseHistoryLine (str "ssh host.local uptime") = some (str "host.local") := by decide
example : parseHistoryLine (str ": 1700000000:0;ssh -i ~/.ssh/id_ed25519 git@github.com")
    = some (str "github.com") := by decide
example : parseHistoryLine (str "ssh --help") = none := by decide
example : parseHistoryLine (str "git push origin main") = none := by decide
example : parseHistoryLine (str "ssh [2001:db8::1]") = none := by decide
example : parseHistoryLine (str "/usr/bin/ssh -p2222 box") = some (str "box") := by decide
example : parseHistoryLine (str "") = none := by decide
example : stripAnsi (str "no escapes") = str "no escapes" := by decide

example : parseHistoryLine (Char.ofNat 27 :: str "[31mssh a") = some (str "a") := by decide

/-- The catalog rows of the `hosts` table that matter to import accounting:
the set of catalogued host strings (the `UNIQUE` constraint key). -/
structure Catalog where
  hosts : List Str
deriving DecidableEq, Repr

/-- Store-level errors: the SQLite unique-constraint failure recognised by
`isUniqueConstraintError`, or a rejected host from `normalizeHost`. -/
inductive StoreErr
  | uniqueViolation
  | badHost (e : HostErr)
deriving DecidableEq, Repr

/-- Model of `Store.AddHost`: normalize, then insert; inserting an
already-catalogued host violates the `UNIQUE` constraint.  The comment is
trimmed and stored in the row; the model catalog tracks only host keys, so
the comment does not appear in the result. -/
def addHost (cat : Catalog) (host _comment : Str) : Except StoreErr Catalog :=
  match normalizeHost host with
  | .error e => .error (.badHost e)
  | .ok norm =>
    if norm ∈ cat.hosts then .error .uniqueViolation
    else .ok ⟨norm :: cat.hosts⟩

/-- Model of `isUniqueConstraintError`. -/
def isUniqueConstraintError : StoreErr → Bool
  | .uniqueViolation => true
  | .badHost _ => false

/-- Model of `Store.ImportHost`: `AddHost`, with a unique-constraint
failure treated as success (and no catalog change). -/
def importHost (cat : Catalog) (host comment : Str) : Except StoreErr Catalog :=
  match addHost cat host comment with
  | .ok c => .ok c
  | .error e => if isUniqueConstraintError e then .ok cat else .error e

/-- The per-line loop of `importHistoryFile` over a file's lines: classify,
skip run-duplicates via `seen`, `ImportHost`, record in `seen` and count on
success, stop the file on a store error. -/
def importLines (cat : Catalog) (seen : List Str) (added : Nat) :
    List Str → Nat × Catalog × List Str × Option StoreErr
  | [] => (added, cat, seen, none)
  | line :: rest =>
    match parseHistoryLine line with
    | none => importLines cat seen added rest
    | some host =>
      if host ∈ seen then importLines cat seen added rest
      else
        match importHost cat host (str "imported from history") with
        | .error e => (added, cat, seen, some e)
        | .ok cat2 => importLines cat2 (host :: seen) (added + 1) rest

/-- One history source as the scanner sees it: a path that fails to open
with `os.ErrNotExist`, a path that fails to open for another reason, or an
opened file delivering its lines and then possibly a scanner read error. -/
inductive HSource
  | missing (path : Str)
  | openFail (path : Str) (msg : Str)
  | file (path : Str) (lines : List Str) (readErr : Option Str)
deriving DecidableEq, Repr

/-- Path of a history source. -/
def HSource.path : HSource → Str
  | .missing p => p
  | .openFail p _ => p
  | .file p _ _ => p

/-- Per-source errors of the scanner: a non-`ErrNotExist` open failure, a
scanner read failure after the delivered lines, or a store error from an
insertion. -/
inductive SourceErr
  | openErr (msg : Str)
  | readErr (msg : Str)
  | storeErr (e : StoreErr)
deriving DecidableEq, Repr

/-- Model of `Store.importHistoryFile`: a missing file is quietly skipped;
any other open failure is the source's error; otherwise the lines are
processed and a scanner read error is reported only after them. -/
def importHistoryFile (cat : Catalog) (seen : List Str) :
    HSource → Nat × Catalog × List Str × Option SourceErr
  | .missing _ => (0, cat, seen, none)
  | .openFail _ msg => (0, cat, seen, some (.openErr msg))
  | .file _ lines readErr =>
    match importLines cat seen 0 lines with
    | (added, cat2, seen2, some e) => (added, cat2, seen2, some (.storeErr e))
    | (added, cat2, seen2, none) =>
      match readErr with
      | some msg => (added, cat2, seen2, some (.readErr msg))
      | none => (added, cat2, seen2, none)

/-- Model of `Store.ImportFromHistory`: process the sources in order with
one shared `seen` set and catalog; a failed source's count is discarded and
its error recorded against its path; counts of clean sources accumulate. -/
def importFromHistory (cat : Catalog) (seen : List Str) :
    List HSource → Nat × Catalog × List Str × List (Str × SourceErr)
  | [] => (0, cat, seen, [])
  | src :: rest =>
    match importHistoryFile cat seen src with
    | (added, cat2, seen2, err?) =>
      match importFromHistory cat2 seen2 rest with
      | (n, cat3, seen3, errs) =>
        match err? with
        | some e => (n, cat3, seen3, (src.path, e) :: errs)
        | none => (added + n, cat3, seen3, errs)

example :
    importFromHistory ⟨[]⟩ []
      [.file (str "a") [str "ssh one.example"] none,
       .missing (str "b"),
       .file (str "c") [str "ssh one.example", str "ssh two.example"] none] =
    (2, ⟨[str "two.example", str "one.example"]⟩,
     [str "two.example", str "one.example"], []) := by decide

/-- Go byte-wise string `<`, modelled as code-point lexicographic order
(UTF-8 byte order and code-point order agree). -/
def strLt : Str → Str → Bool
  | [], [] => false
  | [], _ :: _ => true
  | _ :: _, [] => false
  | a :: as, b :: bs =>
    if a.toNat < b.toNat then true
    else if b.toNat < a.toNat then false
    else strLt as bs

/-- A catalog row as `ListHosts` returns it.  `lastUsedAt` models
`sql.NullTime` (`none` = not valid); the `Int` is a clock value with
`time.After` as `>`. -/
structure HostRec where
  id : Int
  host : Str
  comment : Str
  lastUsedAt : Option Int
  useCount : Nat
deriving DecidableEq, Repr

/-- The `sort.Slice` comparator of `matchingIndices` on `(score, source
index, record)` triples: equal scores fall through to the timestamp rules
(both present: more recent first; presence beats absence; both absent:
ascending host); unequal scores order by descending score. -/
def matchLess (a b : Int × Nat × HostRec) : Bool :=
  if a.1 = b.1 then
    match a.2.2.lastUsedAt, b.2.2.lastUsedAt with
    | some ti, some tj => decide (tj < ti)
    | some _, none => true
    | none, some _ => false
    | none, none => strLt a.2.2.host b.2.2.host
  else decide (b.1 < a.1)

/-- Insertion step of the sort used to model `sort.Slice`. -/
def insertLe (le : α → α → Bool) (x : α) : List α → List α
  | [] => [x]
  | y :: ys => if le x y then x :: y :: ys else y :: insertLe le x ys

/-- Comparator-driven sort used to model `sort.Slice` (Go's sort is an
unspecified unstable order on comparator-equal elements; this model fixes
the stable one — every property proved or refuted below only involves
pairs the comparator orders strictly, where all correct sorts agree). -/
def sortLe (le : α → α → Bool) : List α → List α
  | [] => []
  | x :: xs => insertLe le x (sortLe le xs)

/-- Model of `matchingIndices`.  The third-party fuzzy scorer is the
parameter `score`: given the lower-cased query and a lower-cased
`host + " " + comment` entry it returns `some` score on a match and `none`
on a non-match (`fuzzy.Find` keeps only matching entries).  An empty query
returns the identity index list; otherwise matches are sorted with
`matchLess` and mapped to their source indices. -/
def matchingIndices (hosts : List HostRec) (score : Str → Str → Option Int)
    (query : Str) : List Nat :=
  if query = [] then List.range hosts.length
  else
    let ms := hosts.enum.filterMap fun p =>
      match score (lowerStr query) (lowerStr (p.2.host ++ [' '] ++ p.2.comment)) with
      | some s => some (s, p.1, p.2)
      | none => none
    (sortLe (fun a b => !matchLess b a) ms).map fun t => t.2.1

/-- Model of the query handling in `applyFilter`: the search box value is
trimmed before `matchingIndices` runs. -/
def applyFilterIx (hosts : List HostRec) (score : Str → Str → Option Int)
    (searchValue : Str) : List Nat :=
  matchingIndices hosts score (goTrimSpace searchValue)

example :
    matchingIndices
      [⟨1, str "b", [], some 1, 0⟩, ⟨2, str "a", [], some 2, 0⟩, ⟨3, str "c", [], none, 0⟩]
      (fun _ e => if e.head? = some 'c' then none else some 0) (str "q") =
    [1, 0] := by decide

/-- The shell metacharacters that the spec requires the allow-list to
reject: space, tab, `;`, `|`, backtick, `$`, single quote, double quote. -/
def shellMetaChars : List Char :=
  [' ', Char.ofNat 9, ';', '|', Char.ofNat 96, '$', Char.ofNat 39, Char.ofNat 34]

theorem charToNatInj {a b : Char} (h : a.toNat = b.toNat) : a = b :=
  Char.ext (UInt32.ext h)

theorem dropWhile_id_of {p : Char → Bool} :
    ∀ (s : Str), (∀ c ∈ s, p c = false) → s.dropWhile p = s := by
  intro s h
  cases s with
  | nil => rfl
  | cons a tl =>
    exact List.dropWhile_cons_of_neg (by simp [h a (List.mem_cons_self a tl)])

theorem takeWhile_id_of {p : Char → Bool} :
    ∀ (s : Str), (∀ c ∈ s, p c = true) → s.takeWhile p = s := by
  intro s
  induction s with
  | nil => intro _; rfl
  | cons a tl ih =>
    intro h
    rw [List.takeWhile_cons_of_pos (h a (List.mem_cons_self a tl))]
    rw [ih fun c hc => h c (List.mem_cons_of_mem a hc)]

theorem trim_id_of_nonspace (s : Str) (h : ∀ c ∈ s, goIsSpace c = false) :
    goTrimSpace s = s := by
  unfold goTrimSpace
  rw [dropWhile_id_of s h,
      dropWhile_id_of s.reverse (fun c hc => h c (List.mem_reverse.mp hc)),
      List.reverse_reverse]

theorem hexClose_chars :
    ∀ (s : Str), hexClose s = true → ∀ c ∈ s, isHexColon c = true ∨ c = ']' := by
  intro s
  induction s with
  | nil => intro h c hc; cases hc
  | cons a tl ih =>
    cases tl with
    | nil =>
      intro h c hc
      simp only [hexClose, decide_eq_true_eq] at h
      rcases List.mem_cons.mp hc with rfl | h2
      · exact .inr h
      · cases h2
    | cons b tl2 =>
      intro h c hc
      simp only [hexClose, Bool.and_eq_true] at h
      rcases List.mem_cons.mp hc with rfl | h2
      · exact .inl h.1
      · exact ih h.2 c h2

theorem safeHost_chars (t : Str) (h : safeHost t = true) :
    ∀ c ∈ t, isAllowChar c = true ∨ c = '[' ∨ c = ']' ∨ isHexColon c = true := by
  intro c hc
  simp only [safeHost, Bool.or_eq_true, Bool.and_eq_true, decide_eq_true_eq,
    List.all_eq_true] at h
  rcases h with ⟨_, hall⟩ | hmat
  · exact .inl (hall c hc)
  · split at hmat
    · next c2 rest =>
        rcases List.mem_cons.mp hc with rfl | h2
        · exact .inr (.inl rfl)
        · rcases hexClose_chars (c2 :: rest) (Bool.and_elim_right hmat) c h2 with hh | hh
          · exact .inr (.inr (.inr hh))
          · exact .inr (.inr (.inl hh))
    · exact absurd hmat (by decide)

theorem safe_char_not_space (c : Char)
    (h : isAllowChar c = true ∨ c = '[' ∨ c = ']' ∨ isHexColon c = true) :
    goIsSpace c = false := by
  rw [Bool.eq_false_iff]
  intro hsp
  rcases h with h | h | h | h
  · simp only [isAllowChar, Bool.or_eq_true, decide_eq_true_eq] at h
    simp only [goIsSpace, Bool.or_eq_true, decide_eq_true_eq] at hsp
    omega
  · subst h; exact absurd hsp (by decide)
  · subst h; exact absurd hsp (by decide)
  · simp only [isHexColon, Bool.or_eq_true, decide_eq_true_eq] at h
    simp only [goIsSpace, Bool.or_eq_true, decide_eq_true_eq] at hsp
    omega

theorem norm_ok_props (raw n : Str) (h : normalizeHost raw = .ok n) :
    goTrimSpace raw = n ∧ n ≠ [] ∧ safeHost n = true := by
  simp only [normalizeHost] at h
  split at h
  · cases h
  · split at h
    · cases h
    · split at h
      · next h0 _ hs =>
        cases h
        exact ⟨rfl, h0, hs⟩
      · cases h

theorem norm_fixpoint_of_props (n : Str) (hne : n ≠ []) (hsafe : safeHost n = true) :
    normalizeHost n = .ok n := by
  have hns : ∀ c ∈ n, goIsSpace c = false :=
    fun c hc => safe_char_not_space c (safeHost_chars n hsafe c hc)
  have hnospace : ' ' ∉ n := fun hmem => absurd (hns ' ' hmem) (by decide)
  simp [normalizeHost, trim_id_of_nonspace n hns, hne, hnospace, hsafe]

theorem extractTarget_norm (tok h : Str) (he : extractTarget tok = some h) :
    normalizeHost (goTrimBrackets (afterLastAt tok)) = .ok h := by
  simp only [extractTarget] at he
  split at he
  · cases he
  · split at he
    · next n heq =>
      cases he
      exact heq
    · cases he

theorem walkFields_some :
    ∀ (fs : List Str) (b : Bool) (h : Str), walkFields b fs = some h →
      ∃ tok, extractTarget tok = some h := by
  intro fs
  induction fs with
  | nil => intro b h hw; cases b <;> cases hw
  | cons tok rest ih =>
    intro b h hw
    cases b with
    | true => exact ih false h hw
    | false =>
      simp only [walkFields] at hw
      split at hw
      · exact ih false h hw
      · split at hw
        · split at hw
          · exact ih false h hw
          · split at hw
            · exact ih false h hw
            · split at hw
              · exact ih true h hw
              · exact ih false h hw
        · exact ⟨tok, hw⟩

theorem classifyRest_some (l2 h : Str) (hc : classifyRest l2 = some h) :
    ∃ tok, extractTarget tok = some h := by
  simp only [classifyRest] at hc
  split at hc
  · cases hc
  · split at hc
    · cases hc
    · exact walkFields_some _ false h hc

theorem parse_some_target (line h : Str) (hp : parseHistoryLine line = some h) :
    ∃ tok, extractTarget tok = some h := by
  simp only [parseHistoryLine] at hp
  split at hp
  · cases hp
  · exact classifyRest_some _ h hp

theorem parse_norm_fixpoint (line h : Str) (hp : parseHistoryLine line = some h) :
    h ≠ [] ∧ safeHost h = true ∧ normalizeHost h = .ok h := by
  obtain ⟨tok, he⟩ := parse_some_target line h hp
  obtain ⟨-, hne, hsafe⟩ := norm_ok_props _ h (extractTarget_norm tok h he)
  exact ⟨hne, hsafe, norm_fixpoint_of_props h hne hsafe⟩

theorem strLt_asymm_of_ne : ∀ (a b : Str), a ≠ b → strLt a b ≠ strLt b a := by
  intro a
  induction a with
  | nil =>
    intro b hne
    cases b with
    | nil => exact absurd rfl hne
    | cons d bs => simp [strLt]
  | cons c as ih =>
    intro b hne
    cases b with
    | nil => simp [strLt]
    | cons d bs =>
      by_cases hlt : c.toNat < d.toNat
      · have hgt : ¬ d.toNat < c.toNat := by omega
        simp [strLt, hlt, hgt]
      · by_cases hgt : d.toNat < c.toNat
        · simp [strLt, hlt, hgt]
        · have hcd : c = d := charToNatInj (by omega)
          subst hcd
          have htails : as ≠ bs := by
            intro h; exact hne (by rw [h])
          simpa [strLt, hlt] using ih bs htails

theorem ansiGo_id_of_no_esc : ∀ (s : Str), (∀ c ∈ s, c.toNat ≠ 27) → ansiGo s [] = s := by
  intro s
  induction s with
  | nil => intro _; rfl
  | cons c rest ih =>
    intro h
    simp only [ansiGo]
    rw [if_neg (h c (List.mem_cons_self c rest))]
    rw [ih fun d hd => h d (List.mem_cons_of_mem c hd)]

theorem stripAnsi_id_of_no_esc (s : Str) (h : ∀ c ∈ s, c.toNat ≠ 27) : stripAnsi s = s :=
  ansiGo_id_of_no_esc s h

theorem fieldsAux_nonspace :
    ∀ (w : Str), w ≠ [] → (∀ c ∈ w, goIsSpace c = false) →
      ∀ (acc : Str), fieldsAux w acc = [acc.reverse ++ w] := by
  intro w
  induction w with
  | nil => intro hne; exact absurd rfl hne
  | cons c tl ih =>
    intro _ h acc
    have hc : goIsSpace c = false := h c (List.mem_cons_self c tl)
    simp only [fieldsAux, hc, Bool.false_eq_true, if_false]
    cases tl with
    | nil => simp [fieldsAux]
    | cons d tl2 =>
      rw [ih (by simp) (fun x hx => h x (List.mem_cons_of_mem c hx)) (c :: acc)]
      simp

theorem afterLastAt_id_of_no_at (s : Str) (h : ∀ c ∈ s, c ≠ '@') : afterLastAt s = s := by
  unfold afterLastAt
  rw [takeWhile_id_of s.reverse (fun c hc => by simp [h c (List.mem_reverse.mp hc)])]
  exact List.reverse_reverse s

theorem hexColon_not_space (c : Char) (h : isHexColon c = true) : goIsSpace c = false :=
  safe_char_not_space c (.inr (.inr (.inr h)))

theorem hexColon_ne_esc (c : Char) (h : isHexColon c = true) : c.toNat ≠ 27 := by
  simp only [isHexColon, Bool.or_eq_true, decide_eq_true_eq] at h
  omega

theorem hexColon_not_bracket (c : Char) (h : isHexColon c = true) : isBracketCh c = false := by
  rw [Bool.eq_false_iff]
  intro hb
  simp only [isBracketCh, Bool.or_eq_true, decide_eq_true_eq] at hb
  rcases hb with rfl | rfl
  · exact absurd h (by decide)
  · exact absurd h (by decide)

theorem hexColon_ne_at (c : Char) (h : isHexColon c = true) : c ≠ '@' := by
  rintro rfl
  exact absurd h (by decide)

theorem safeHost_false_of_colon (t : Str) (hcolon : ':' ∈ t)
    (hhex : ∀ c ∈ t, isHexColon c = true) : safeHost t = false := by
  cases hsf : safeHost t with
  | false => rfl
  | true =>
    exfalso
    simp only [safeHost, Bool.or_eq_true, Bool.and_eq_true, decide_eq_true_eq,
      List.all_eq_true] at hsf
    rcases hsf with ⟨-, hall⟩ | hmat
    · exact absurd (hall ':' hcolon) (by decide)
    · split at hmat
      · next c2 rest2 =>
          exact absurd (hhex '[' (List.mem_cons_self _ _)) (by decide)
      · exact absurd hmat (by decide)

theorem trimBrackets_bracketed (inner : Str) (hne : inner ≠ [])
    (hnb : ∀ c ∈ inner, isBracketCh c = false) :
    goTrimBrackets ('[' :: (inner ++ [']'])) = inner := by
  unfold goTrimBrackets
  rw [List.dropWhile_cons_of_pos (by decide)]
  cases inner with
  | nil => exact absurd rfl hne
  | cons c0 tl =>
    rw [List.cons_append,
      List.dropWhile_cons_of_neg (by simp [hnb c0 (List.mem_cons_self _ _)])]
    have hrev : (c0 :: (tl ++ [']'])).reverse = ']' :: (tl.reverse ++ [c0]) := by simp
    rw [hrev, List.dropWhile_cons_of_pos (by decide)]
    rw [dropWhile_id_of (tl.reverse ++ [c0]) (by
      intro c hc
      rcases List.mem_append.mp hc with hc1 | hc2
      · exact hnb c (List.mem_cons_of_mem _ (List.mem_reverse.mp hc1))
      · rw [List.mem_singleton.mp hc2]
        exact hnb c0 (List.mem_cons_self _ _))]
    simp

/-- Claim C5: the scanner processes sources in order and always produces a
count with aggregated per-source errors: a missing source contributes zero
hosts and no error; a source failing to open for any other reason gets its
error recorded against its path while the remaining sources are still
processed; and a source whose lines all import cleanly but whose read then
fails keeps its side effects, has its read error recorded against its path,
has its count discarded, and scanning continues. -/
theorem c5_scanner_error_handling :
    ∀ (cat : Catalog) (seen : List Str) (rest : List HSource) (p msg m : Str)
      (ls : List Str),
      (importFromHistory cat seen (.missing p :: rest) =
        importFromHistory cat seen rest) ∧
      (importFromHistory cat seen (.openFail p msg :: rest) =
        ((importFromHistory cat seen rest).1,
         (importFromHistory cat seen rest).2.1,
         (importFromHistory cat seen rest).2.2.1,
         (p, .openErr msg) :: (importFromHistory cat seen rest).2.2.2)) ∧
      (∀ a cat2 seen2, importLines cat seen 0 ls = (a, cat2, seen2, none) →
        importFromHistory cat seen (.file p ls (some m) :: rest) =
        ((importFromHistory cat2 seen2 rest).1,
         (importFromHistory cat2 seen2 rest).2.1,
         (importFromHistory cat2 seen2 rest).2.2.1,
         (p, .readErr m) :: (importFromHistory cat2 seen2 rest).2.2.2)) := by
  intro cat seen rest p msg m ls
  refine ⟨?_, ?_, ?_⟩
  · simp [importFromHistory, importHistoryFile]
  · simp [importFromHistory, importHistoryFile, HSource.path]
  · intro a cat2 seen2 hIL
    simp [importFromHistory, importHistoryFile, hIL, HSource.path]

theorem c5_witness :
    importFromHistory ⟨[]⟩ [] [.file (str "zsh") [str "ssh a.example"] (some (str "boom"))] =
      (0, ⟨[str "a.example"]⟩, [str "a.example"],
       [(str "zsh", .readErr (str "boom"))]) := by
  have h := (c5_scanner_error_handling ⟨[]⟩ [] [] (str "zsh") (str "x") (str "boom")
    [str "ssh a.example"]).2.2 1 ⟨[str "a.example"]⟩ [str "a.example"] (by decide)
  rw [h]
  decide

/-- Claim C9: a host returned by the history-line classifier is a fixpoint
of the normalizer: non-empty, free of whitespace, matching the strict
allow-list, and unchanged by a second normalization. -/
theorem c9_found_host_is_fixpoint (line h : Str)
    (hp : parseHistoryLine line = some h) :
    h ≠ [] ∧ (∀ c ∈ h, goIsSpace c = false) ∧ safeHost h = true ∧
      normalizeHost h = .ok h := by
  obtain ⟨hne, hsafe, hfix⟩ := parse_norm_fixpoint line h hp
  exact ⟨hne, fun c hc => safe_char_not_space c (safeHost_chars h hsafe c hc), hsafe, hfix⟩

theorem c9_witness :
    parseHistoryLine (str "ssh user@box-1.example") = some (str "box-1.example") ∧
    str "box-1.example" ≠ [] ∧ safeHost (str "box-1.example") = true ∧
    normalizeHost (str "box-1.example") = .ok (str "box-1.example") := by
  have hp : parseHistoryLine (str "ssh user@box-1.example") = some (str "box-1.example") := by
    decide
  obtain ⟨h1, -, h3, h4⟩ := c9_found_host_is_fixpoint _ _ hp
  exact ⟨hp, h1, h3, h4⟩

/-- Claim C3 counterexample: with `h` already catalogued, importing a
history file whose one line classifies to `h` yields new-host count 1, not
0 — the conflicting insertion is treated as success-no-op yet still
counted. -/
theorem c3_counterexample :
    importHistoryFile ⟨[str "h"]⟩ [] (.file (str "f") [str "ssh h"] none) =
      (1, ⟨[str "h"]⟩, [str "h"], none) := by decide

/-- Claim C3 as amended: for a classified host not yet seen in this run,
the per-file loop increments the count whether or not the insertion
conflicts with an already-catalogued host — a conflict is success-no-op
(no error, catalog unchanged) but still counts. -/
theorem c3_conflict_still_counted (cat : Catalog) (seen : List Str) (added : Nat)
    (line : Str) (rest : List Str) (host : Str)
    (hparse : parseHistoryLine line = some host)
    (hseen : host ∉ seen) (hcat : host ∈ cat.hosts) :
    importLines cat seen added (line :: rest) =
      importLines cat (host :: seen) (added + 1) rest := by
  obtain ⟨-, -, hfix⟩ := parse_norm_fixpoint line host hparse
  have hih : importHost cat host (str "imported from history") = .ok cat := by
    simp [importHost, addHost, hfix, hcat, isUniqueConstraintError]
  simp only [importLines, hparse]
  simp [hseen, hih]

theorem c3_witness :
    importLines ⟨[str "h"]⟩ [] 0 [str "ssh h"] = (1, ⟨[str "h"]⟩, [str "h"], none) := by
  have h := c3_conflict_still_counted ⟨[str "h"]⟩ [] 0 (str "ssh h") [] (str "h")
    (by decide) (by decide) (by decide)
  rw [h]
  decide

/-- Claim C2 counterexample: the input `" a"` contains a space, yet the
normalizer trims it away and succeeds instead of returning the invalid-host
error. -/
theorem c2_counterexample :
    ' ' ∈ str " a" ∧ normalizeHost (str " a") = .ok (str "a") := by decide

/-- Claim C2 as amended: every input whose *trimmed* value still contains a
space, tab, `;`, `|`, backtick, `$`, or quote character is rejected by the
normalizer. -/
theorem c2_trimmed_metachar_rejected (raw : Str)
    (h : ∃ c ∈ goTrimSpace raw, c ∈ shellMetaChars) :
    ∃ e, normalizeHost raw = .error e := by
  obtain ⟨c, hc, hm⟩ := h
  by_cases h0 : goTrimSpace raw = []
  · exact ⟨.empty, by simp [normalizeHost, h0]⟩
  · by_cases h1 : ' ' ∈ goTrimSpace raw
    · exact ⟨.spaces, by simp [normalizeHost, h0, h1]⟩
    · refine ⟨.invalid, ?_⟩
      have hsafe : safeHost (goTrimSpace raw) = false := by
        cases hsf : safeHost (goTrimSpace raw)
        · rfl
        · exfalso
          have hcls := safeHost_chars _ hsf c hc
          fin_cases hm <;> revert hcls <;> decide
      simp [normalizeHost, h0, h1, hsafe]

theorem c2_witness :
    (∃ c ∈ goTrimSpace (str "local;rm"), c ∈ shellMetaChars) ∧
    (∃ e, normalizeHost (str "local;rm") = .error e) :=
  ⟨⟨';', by decide, by decide⟩,
   c2_trimmed_metachar_rejected (str "local;rm") ⟨';', by decide, by decide⟩⟩

/-- Claim C1 counterexample: two distinct records with equal scores and
equal (both-present) last-used timestamps compare equal in both directions
under the ranking comparator, so it is not a total order on distinct
records. -/
theorem c1_counterexample :
    matchLess (0, 0, ⟨1, str "a", [], some 5, 0⟩) (0, 1, ⟨2, str "b", [], some 5, 0⟩) = false ∧
    matchLess (0, 1, ⟨2, str "b", [], some 5, 0⟩) (0, 0, ⟨1, str "a", [], some 5, 0⟩) = false ∧
    (⟨1, str "a", [], some 5, 0⟩ : HostRec) ≠ ⟨2, str "b", [], some 5, 0⟩ := by decide

/-- Claim C1 as amended: the comparator strictly orders any two records
with distinct hosts — exactly one direction holds — except when their
scores are equal and both carry the same timestamp, where the two compare
equal; ranking stays deterministic only because the whole computation is a
pure function of snapshot and query, not because the comparator is total. -/
theorem c1_comparator_total_unless_equal_timestamps
    (si sj : Int) (ii ij : Nat) (hi hj : HostRec)
    (hhost : hi.host ≠ hj.host)
    (hts : si = sj → hi.lastUsedAt ≠ hj.lastUsedAt ∨ hi.lastUsedAt = none) :
    matchLess (si, ii, hi) (sj, ij, hj) ≠ matchLess (sj, ij, hj) (si, ii, hi) := by
  by_cases hs : si = sj
  · subst hs
    rcases h1 : hi.lastUsedAt with _ | ti <;> rcases h2 : hj.lastUsedAt with _ | tj
    · simp only [matchLess, if_pos rfl, h1, h2]
      exact strLt_asymm_of_ne _ _ hhost
    · simp [matchLess, h1, h2]
    · simp [matchLess, h1, h2]
    · have htij : ti ≠ tj := by
        rcases hts rfl with hne | hnone
        · intro hE; rw [h1, h2, hE] at hne; exact hne rfl
        · rw [h1] at hnone; cases hnone
      simp only [matchLess, h1, h2, eq_self_iff_true, if_true, Ne, decide_eq_decide]
      intro hiff
      rcases lt_trichotomy ti tj with h | h | h
      · have := hiff.mpr h; omega
      · exact htij h
      · have := hiff.mp h; omega
  · have hs2 : ¬ sj = si := fun h => hs h.symm
    simp only [matchLess, if_neg hs, if_neg hs2, Ne, decide_eq_decide]
    intro hiff
    rcases lt_trichotomy si sj with h | h | h
    · exact absurd (hiff.mpr h) (by omega)
    · exact hs h
    · exact absurd (hiff.mp h) (by omega)

theorem c1_witness :
    matchLess (1, 0, ⟨1, str "a", [], none, 0⟩) (0, 1, ⟨2, str "b", [], some 2, 0⟩) ≠
      matchLess (0, 1, ⟨2, str "b", [], some 2, 0⟩) (1, 0, ⟨1, str "a", [], none, 0⟩) :=
  c1_comparator_total_unless_equal_timestamps 1 0 0 1
    ⟨1, str "a", [], none, 0⟩ ⟨2, str "b", [], some 2, 0⟩ (by decide) (by decide)

/-- Claim C4 counterexample: two records with identical scores and
identical has-last-used status (both present) do not sort by ascending
host: the record with the larger host but more recent timestamp comes
first. -/
theorem c4_counterexample :
    strLt (str "a") (str "b") = true ∧
    matchingIndices [⟨1, str "a", [], some 1, 0⟩, ⟨2, str "b", [], some 2, 0⟩]
      (fun _ _ => some 0) (str "q") = [1, 0] := by decide

/-- Claim C4 as amended: matches sort by descending score; on a score tie a
record with a timestamp precedes one without; when both carry timestamps
the order is by recency alone (the host name is never consulted, and equal
timestamps leave the pair comparator-equal); ascending host order applies
only when both records lack timestamps. -/
theorem c4_comparator_chain (si sj : Int) (ii ij : Nat) (hi hj : HostRec) :
    (si ≠ sj → matchLess (si, ii, hi) (sj, ij, hj) = decide (sj < si)) ∧
    (si = sj → ∀ ti, hi.lastUsedAt = some ti → hj.lastUsedAt = none →
      matchLess (si, ii, hi) (sj, ij, hj) = true) ∧
    (si = sj → ∀ tj, hi.lastUsedAt = none → hj.lastUsedAt = some tj →
      matchLess (si, ii, hi) (sj, ij, hj) = false) ∧
    (si = sj → ∀ ti tj, hi.lastUsedAt = some ti → hj.lastUsedAt = some tj →
      matchLess (si, ii, hi) (sj, ij, hj) = decide (tj < ti)) ∧
    (si = sj → hi.lastUsedAt = none → hj.lastUsedAt = none →
      matchLess (si, ii, hi) (sj, ij, hj) = strLt hi.host hj.host) := by
  refine ⟨fun hs => ?_, fun hs ti h1 h2 => ?_, fun hs tj h1 h2 => ?_,
    fun hs ti tj h1 h2 => ?_, fun hs h1 h2 => ?_⟩
  · simp [matchLess, hs]
  · subst hs; simp [matchLess, h1, h2]
  · subst hs; simp [matchLess, h1, h2]
  · subst hs; simp [matchLess, h1, h2]
  · subst hs; simp [matchLess, h1, h2]

theorem c4_witness :
    matchLess (0, 0, ⟨1, str "x", [], some 9, 0⟩) (0, 1, ⟨2, str "y", [], some 4, 0⟩) = true := by
  have h := (c4_comparator_chain 0 0 0 1 ⟨1, str "x", [], some 9, 0⟩
    ⟨2, str "y", [], some 4, 0⟩).2.2.2.1 rfl 9 4 rfl rfl
  rw [h]
  decide

/-- Claim C6: whenever the field walk, in its normal state, meets a field
that is one of the known value-taking single-letter flags, the immediately
following field is consumed as that flag's value unconditionally — the
classification result is the same as if both fields were absent, so the
value field is never itself classified as a flag or as the connection
target, even if it starts with `-`. -/
theorem c6_value_flag_consumes_next (t v : Str) (rest : List Str)
    (h : sshOptionsWithArg t = true) :
    walkFields false (t :: v :: rest) = walkFields false rest := by
  have h' := of_decide_eq_true h
  fin_cases h' <;> rfl

theorem c6_witness :
    sshOptionsWithArg (str "-p") = true ∧
    walkFields false [str "-p", str "-i", str "example.com"] =
      walkFields false [str "example.com"] :=
  ⟨by decide, c6_value_flag_consumes_next (str "-p") (str "-i") [str "example.com"] (by decide)⟩

/-- Claim C7: when the search box value trims to the empty query, the match
engine returns the identity ordering `0, …, n-1` over the snapshot. -/
theorem c7_empty_query_identity (hosts : List HostRec) (score : Str → Str → Option Int)
    (searchValue : Str) (h : goTrimSpace searchValue = []) :
    applyFilterIx hosts score searchValue = List.range hosts.length := by
  simp [applyFilterIx, h, matchingIndices]

theorem c7_witness :
    goTrimSpace (str "  ") = [] ∧
    applyFilterIx [⟨1, str "a", [], none, 0⟩, ⟨2, str "b", [], some 3, 1⟩]
      (fun _ _ => none) (str "  ") = List.range 2 :=
  ⟨by decide, c7_empty_query_identity _ (fun _ _ => none) (str "  ") (by decide)⟩

/-- Claim C10: a history line that, after ANSI stripping and trimming,
starts with `": "` and contains a `;` is classified from the remainder
after the first `;` — no digit fields of zsh's timestamped format are
required. -/
theorem c10_zsh_lax_semicolon (line r : Str)
    (hPre : (str ": ").isPrefixOf (goTrimSpace (stripAnsi line)) = true)
    (hSemi : dropThroughSemi (goTrimSpace (stripAnsi line)) = some r) :
    parseHistoryLine line = classifyRest r := by
  have hne : goTrimSpace (stripAnsi line) ≠ [] := by
    intro h
    rw [h] at hPre
    exact absurd hPre (by decide)
  unfold parseHistoryLine
  simp [hne, hPre, hSemi]

theorem c10_witness :
    (str ": ").isPrefixOf (goTrimSpace (stripAnsi (str ": nodigits;ssh zhost"))) = true ∧
    dropThroughSemi (goTrimSpace (stripAnsi (str ": nodigits;ssh zhost"))) =
      some (str "ssh zhost") ∧
    parseHistoryLine (str ": nodigits;ssh zhost") = classifyRest (str "ssh zhost") ∧
    classifyRest (str "ssh zhost") = some (str "zhost") :=
  ⟨by decide, by decide,
   c10_zsh_lax_semicolon (str ": nodigits;ssh zhost") (str "ssh zhost") (by decide) (by decide),
   by decide⟩

theorem mem_bracketed_cases {c : Char} {inner : Str}
    (hc : c ∈ '[' :: (inner ++ [']'])) :
    c = '[' ∨ c = ']' ∨ c ∈ inner := by
  rcases List.mem_cons.mp hc with rfl | h2
  · exact .inl rfl
  · rcases List.mem_append.mp h2 with h3 | h3
    · exact .inr (.inr h3)
    · rcases List.mem_cons.mp h3 with rfl | h4
      · exact .inr (.inl rfl)
      · cases h4

theorem mem_sshline_cases {c : Char} {inner : Str}
    (hc : c ∈ 's' :: 's' :: 'h' :: ' ' :: '[' :: (inner ++ [']'])) :
    c = 's' ∨ c = 'h' ∨ c = ' ' ∨ c = '[' ∨ c = ']' ∨ c ∈ inner := by
  rcases List.mem_cons.mp hc with rfl | h2
  · exact .inl rfl
  · rcases List.mem_cons.mp h2 with rfl | h3
    · exact .inl rfl
    · rcases List.mem_cons.mp h3 with rfl | h4
      · exact .inr (.inl rfl)
      · rcases List.mem_cons.mp h4 with rfl | h5
        · exact .inr (.inr (.inl rfl))
        · rcases mem_bracketed_cases h5 with rfl | rfl | h6
          · exact .inr (.inr (.inr (.inl rfl)))
          · exact .inr (.inr (.inr (.inr (.inl rfl))))
          · exact .inr (.inr (.inr (.inr (.inr h6))))

/-- Claim C8: a history line whose connection target is a bracketed IPv6
literal classifies to not-found: the brackets are stripped before
normalization and the bare colon-containing remainder fails the allow-list,
so an IPv6 host is never extracted from history. -/
theorem c8_bracketed_ipv6_not_found (inner : Str)
    (hne : inner ≠ [])
    (hhex : ∀ c ∈ inner, isHexColon c = true)
    (hcolon : ':' ∈ inner) :
    parseHistoryLine (str "ssh [" ++ inner ++ str "]") = none := by
  have hL : str "ssh [" ++ inner ++ str "]" =
      's' :: 's' :: 'h' :: ' ' :: '[' :: (inner ++ [']']) := rfl
  rw [hL]
  have hnsp : ∀ c ∈ inner, goIsSpace c = false :=
    fun c hc => hexColon_not_space c (hhex c hc)
  have hnoesc : stripAnsi ('s' :: 's' :: 'h' :: ' ' :: '[' :: (inner ++ [']'])) =
      's' :: 's' :: 'h' :: ' ' :: '[' :: (inner ++ [']']) := by
    apply stripAnsi_id_of_no_esc
    intro c hc
    rcases mem_sshline_cases hc with rfl | rfl | rfl | rfl | rfl | hc2
    · decide
    · decide
    · decide
    · decide
    · decide
    · exact hexColon_ne_esc c (hhex c hc2)
  have htrim : goTrimSpace ('s' :: 's' :: 'h' :: ' ' :: '[' :: (inner ++ [']'])) =
      's' :: 's' :: 'h' :: ' ' :: '[' :: (inner ++ [']']) := by
    unfold goTrimSpace
    rw [List.dropWhile_cons_of_neg (by decide)]
    have hrev : ('s' :: 's' :: 'h' :: ' ' :: '[' :: (inner ++ [']'])).reverse
        = ']' :: (inner.reverse ++ ['[', ' ', 'h', 's', 's']) := by simp
    rw [hrev, List.dropWhile_cons_of_neg (by decide), ← hrev, List.reverse_reverse]
  have hpre : (str ": ").isPrefixOf ('s' :: 's' :: 'h' :: ' ' :: '[' :: (inner ++ [']'])) =
      false := rfl
  have hfa : fieldsAux ('[' :: (inner ++ [']'])) [] = ['[' :: (inner ++ [']'])] := by
    have hns : ∀ c ∈ '[' :: (inner ++ [']']), goIsSpace c = false := by
      intro c hc
      rcases mem_bracketed_cases hc with rfl | rfl | hc2
      · decide
      · decide
      · exact hnsp c hc2
    simpa using fieldsAux_nonspace ('[' :: (inner ++ [']'])) (by simp) hns []
  have hfields : goFields ('s' :: 's' :: 'h' :: ' ' :: '[' :: (inner ++ [']'])) =
      [str "ssh", '[' :: (inner ++ [']'])] := by
    have h1 : goFields ('s' :: 's' :: 'h' :: ' ' :: '[' :: (inner ++ [']'])) =
        str "ssh" :: fieldsAux ('[' :: (inner ++ [']'])) [] := rfl
    rw [h1, hfa]
  have hat : afterLastAt ('[' :: (inner ++ [']'])) = '[' :: (inner ++ [']']) := by
    apply afterLastAt_id_of_no_at
    intro c hc
    rcases mem_bracketed_cases hc with rfl | rfl | hc2
    · decide
    · decide
    · exact hexColon_ne_at c (hhex c hc2)
  have htb : goTrimBrackets ('[' :: (inner ++ [']'])) = inner :=
    trimBrackets_bracketed inner hne (fun c hc => hexColon_not_bracket c (hhex c hc))
  have hnorm : normalizeHost inner = .error .invalid := by
    have hsp : ' ' ∉ inner := fun hm => absurd (hhex ' ' hm) (by decide)
    simp [normalizeHost, trim_id_of_nonspace inner hnsp, hne, hsp,
      safeHost_false_of_colon inner hcolon hhex]
  simp only [parseHistoryLine, hnoesc, htrim, hpre, Bool.false_eq_true, if_false]
  rw [if_neg (by simp : ¬ ('s' :: 's' :: 'h' :: ' ' :: '[' :: (inner ++ [']']) = []))]
  simp only [classifyRest, hfields]
  rw [if_neg (by simp : ¬ ([str "ssh", '[' :: (inner ++ [']'])] = ([] : List Str)))]
  have hfas : fieldsAfterSsh [str "ssh", '[' :: (inner ++ [']'])] =
      some ['[' :: (inner ++ [']'])] := rfl
  rw [hfas]
  show extractTarget ('[' :: (inner ++ [']'])) = none
  simp only [extractTarget, hat, htb]
  rw [if_neg hne, hnorm]

theorem c8_witness :
    str "2001:db8::1" ≠ [] ∧
    (∀ c ∈ str "2001:db8::1", isHexColon c = true) ∧
    ':' ∈ str "2001:db8::1" ∧
    parseHistoryLine (str "ssh [2001:db8::1]") = none := by
  have h := c8_bracketed_ipv6_not_found (str "2001:db8::1") (by decide) (by decide) (by decide)
  have e : str "ssh [" ++ str "2001:db8::1" ++ str "]" = str "ssh [2001:db8::1]" := by decide
  rw [e] at h
  exact ⟨by decide, by decide, by decide, h⟩

example : normalizeHost (str " example.com ") = .ok (str "example.com") := by decide
example : normalizeHost (str "my-alias") = .ok (str "my-alias") := by decide
example : normalizeHost (str "[2001:db8::1]") = .ok (str "[2001:db8::1]") := by decide
example : normalizeHost (str "   ") = .error .empty := by decide
example : normalizeHost (str "bad host") = .error .spaces := by decide
example : normalizeHost (str "localhost;rm -rf /") = .error .spaces := by decide
example : normalizeHost (str "localhost;x") = .error .invalid := by decide
example : normalizeHost (str " a") = .ok (str "a") := by decide
